import Mathlib

/-!
Verification of the node-configuration string reader
(src/ibdxnet/src/ibnet/core/IbNodeConfStringReader.cpp).

Strings are modelled as lists of characters. The reader itself is
translated from the source; the tokenizer collaborator
(sys::StringUtils::Split) and the NodeConfiguration collaborator
(IbNodeConf / AddEntry) are not part of the sources under src/, so
they are modelled from the specification of their boundary contracts.
-/

namespace IbnetCore

/-- Standard whitespace characters: space, tab, newline, carriage return. -/
def isWhitespaceChar (c : Char) : Bool :=
  c = ' ' || c = '\t' || c = '\n' || c = '\r'

/-- Modelled from the spec: the tokenizer collaborator
sys::StringUtils::Split, whose implementation is not among the sources
under verification. Per the contract consumed by the reader, it splits
the text on contiguous runs of whitespace, returns zero tokens for an
empty or all-whitespace input, never returns empty-string tokens, and
preserves left-to-right order of appearance. -/
def Split (text : List Char) : List (List Char) :=
  (text.splitOnP isWhitespaceChar).filter (fun t => !t.isEmpty)

/-- Modelled from the spec: the NodeConfiguration collaborator
(IbNodeConf), an ordered collection of node descriptor entries whose
implementation is not among the sources under verification. -/
structure IbNodeConf where
  entries : List (List Char)
deriving DecidableEq, Repr

/-- Modelled from the spec: the entry-insertion operation of the
NodeConfiguration collaborator appends the raw descriptor string as a
new entry, preserving insertion order. -/
def IbNodeConf.AddEntry (conf : IbNodeConf) (descriptor : List Char) : IbNodeConf :=
  { entries := conf.entries ++ [descriptor] }

/-- The reader object: it holds only the source string m_str, copied in
at construction and never modified. -/
structure IbNodeConfStringReader where
  m_str : List Char
deriving DecidableEq, Repr

/-- Embedding of IbNodeConfStringReader::Read: create an empty
IbNodeConf, split m_str into tokens, add each token as an entry in
order, and return the populated configuration. -/
def IbNodeConfStringReader.Read (r : IbNodeConfStringReader) : IbNodeConf :=
  (Split r.m_str).foldl IbNodeConf.AddEntry { entries := [] }

/-- State-passing embedding of Read: the object state (the reader and
its fields) is threaded through every iteration of the loop; the body of
Read contains no assignment to m_str, so each iteration passes the
reader state through unchanged. -/
def ReadSt (r : IbNodeConfStringReader) :
    IbNodeConfStringReader × IbNodeConf :=
  (Split r.m_str).foldl (fun p tok => (p.1, p.2.AddEntry tok))
    (r, { entries := [] })

/-- Instrumented embedding of Read: alongside the configuration it
counts how many times the loop body invokes AddEntry. -/
def ReadInstr (r : IbNodeConfStringReader) : IbNodeConf × Nat :=
  (Split r.m_str).foldl (fun p tok => (p.1.AddEntry tok, p.2 + 1))
    ({ entries := [] }, 0)

/-- The loop of Read run against an arbitrary fallible entry-insertion
operation: each iteration calls addEntry on the next token; the loop
body contains no handler, so a failure aborts the remaining iterations
and propagates. -/
def addAllEntries {ε σ : Type} (addEntry : σ → List Char → Except ε σ) :
    σ → List (List Char) → Except ε σ
  | s, [] => Except.ok s
  | s, t :: ts =>
    match addEntry s t with
    | Except.error e => Except.error e
    | Except.ok s2 => addAllEntries addEntry s2 ts

/-- Embedding of Read against an arbitrary fallible entry-insertion
operation, starting from an arbitrary freshly constructed empty
configuration value init. -/
def ReadE {ε σ : Type} (init : σ) (addEntry : σ → List Char → Except ε σ)
    (r : IbNodeConfStringReader) : Except ε σ :=
  addAllEntries addEntry init (Split r.m_str)

/-- Folding AddEntry over a token list appends the tokens to the
entries, in order. -/
lemma foldl_addEntry_entries (l : List (List Char)) (c : IbNodeConf) :
    (l.foldl IbNodeConf.AddEntry c).entries = c.entries ++ l := by
  induction l generalizing c with
  | nil => simp
  | cons t ts ih => simp [IbNodeConf.AddEntry, ih]

/-- The entries produced by Read are exactly the tokens of the source. -/
lemma Read_entries (r : IbNodeConfStringReader) :
    r.Read.entries = Split r.m_str := by
  simp [IbNodeConfStringReader.Read, foldl_addEntry_entries]

/-- Modifying the head of a nonempty list appended with another list
modifies the head of the first list. -/
lemma modifyHead_append_of_ne_nil {α : Type} (f : α → α)
    (l l2 : List α) (h : l ≠ []) :
    (l ++ l2).modifyHead f = l.modifyHead f ++ l2 := by
  cases l with
  | nil => exact absurd rfl h
  | cons a t => simp

/-- Splitting a list around a delimiter element splits the two sides
independently. -/
lemma splitOnP_append_delim {α : Type} (p : α → Bool) (w : α)
    (hw : p w = true) (x y : List α) :
    (x ++ w :: y).splitOnP p = x.splitOnP p ++ y.splitOnP p := by
  induction x with
  | nil => simp [List.splitOnP_nil, List.splitOnP_cons, hw]
  | cons c cs ih =>
    by_cases hc : p c
    · simp [List.splitOnP_cons, hc, ih]
    · simp only [List.cons_append, List.splitOnP_cons, hc, if_neg, ih,
        Bool.false_eq_true, if_false]
      exact modifyHead_append_of_ne_nil _ _ _ (List.splitOnP_ne_nil _ _)

/-- Splitting around a whitespace character tokenizes the two sides
independently. -/
lemma Split_append_ws (w : Char) (hw : isWhitespaceChar w = true)
    (x y : List Char) : Split (x ++ w :: y) = Split x ++ Split y := by
  simp [Split, splitOnP_append_delim _ w hw, List.filter_append]

/-- A leading whitespace character does not change the tokens. -/
lemma Split_ws_cons (w : Char) (hw : isWhitespaceChar w = true)
    (s : List Char) : Split (w :: s) = Split s := by
  have h := Split_append_ws w hw [] s
  simpa [Split] using h

/-- A trailing whitespace character does not change the tokens. -/
lemma Split_ws_append (w : Char) (hw : isWhitespaceChar w = true)
    (s : List Char) : Split (s ++ [w]) = Split s := by
  have h := Split_append_ws w hw s []
  simpa [Split] using h

/-- An all-whitespace input yields zero tokens. -/
lemma Split_eq_nil_of_all_ws (s : List Char)
    (h : ∀ c ∈ s, isWhitespaceChar c = true) : Split s = [] := by
  induction s with
  | nil => rfl
  | cons c cs ih =>
    rw [Split_ws_cons c (h c (by simp))]
    exact ih fun d hd => h d (by simp [hd])

/-- A nonempty input with no whitespace is a single token. -/
lemma Split_eq_single (t : List Char) (hne : t ≠ [])
    (h : ∀ c ∈ t, isWhitespaceChar c = false) : Split t = [t] := by
  rw [Split, List.splitOnP_eq_single]
  · simp [hne]
  · intro c hc
    simp [h c hc]

/-- Every token produced by Split is a nonempty string. -/
lemma ne_nil_of_mem_Split (s t : List Char) (h : t ∈ Split s) :
    t ≠ [] := by
  rw [Split, List.mem_filter] at h
  simpa using h.2

/-- The loop of the state-passing embedding leaves the reader component
untouched and builds the same configuration as the plain fold. -/
lemma foldl_pair_state (l : List (List Char))
    (r : IbNodeConfStringReader) (c : IbNodeConf) :
    l.foldl (fun p tok => (p.1, p.2.AddEntry tok)) (r, c) =
      (r, l.foldl IbNodeConf.AddEntry c) := by
  induction l generalizing c with
  | nil => rfl
  | cons t ts ih => simp [List.foldl_cons, ih]

/-- The instrumented loop counts one AddEntry invocation per token and
builds the same configuration as the plain fold. -/
lemma foldl_pair_count (l : List (List Char)) (c : IbNodeConf) (n : Nat) :
    l.foldl (fun p tok => (p.1.AddEntry tok, p.2 + 1)) (c, n) =
      (l.foldl IbNodeConf.AddEntry c, n + l.length) := by
  induction l generalizing c n with
  | nil => rfl
  | cons t ts ih =>
    simp only [List.foldl_cons, ih, List.length_cons, Prod.mk.injEq]
    exact ⟨trivial, by omega⟩

/-- Running the fallible loop over an appended token list runs the
first part and, only if it succeeds, continues with the second part
from the state the first part produced. -/
lemma addAllEntries_append {ε σ : Type}
    (f : σ → List Char → Except ε σ) (l₁ l₂ : List (List Char)) (s : σ) :
    addAllEntries f s (l₁ ++ l₂) =
      match addAllEntries f s l₁ with
      | Except.ok s2 => addAllEntries f s2 l₂
      | Except.error e => Except.error e := by
  induction l₁ generalizing s with
  | nil => simp [addAllEntries]
  | cons t ts ih =>
    cases h : f s t with
    | error e => simp [addAllEntries, h]
    | ok s2 => simp [addAllEntries, h, ih]

/-- A sample fallible insertion operation: it rejects the descriptor
bad with error code 7 and counts every other descriptor. -/
def sampleAddEntry (n : Nat) (t : List Char) : Except Nat Nat :=
  if t = ['b', 'a', 'd'] then Except.error 7 else Except.ok (n + 1)

/-- C1: for every source string, Read returns a configuration whose
entry count equals the number of maximal nonempty whitespace-delimited
tokens of the source. -/
theorem C1_read_entry_count (r : IbNodeConfStringReader) :
    r.Read.entries.length = (Split r.m_str).length := by
  rw [Read_entries]

/-- C2: the entries of the configuration returned by Read are exactly
the tokens of the source, each passed unmodified to the insertion
operation, in left-to-right source order. -/
theorem C2_read_entries_ordered (r : IbNodeConfStringReader) :
    r.Read.entries = Split r.m_str :=
  Read_entries r

/-- C3: if the entry-insertion operation fails on some token, Read
fails as a whole with exactly that failure, propagated unchanged, and
no configuration value is returned to the caller. -/
theorem C3_read_propagates_failure {ε σ : Type} (init : σ)
    (addEntry : σ → List Char → Except ε σ) (r : IbNodeConfStringReader)
    (pre rest : List (List Char)) (tok : List Char) (s : σ) (e : ε)
    (hsplit : Split r.m_str = pre ++ tok :: rest)
    (hpre : addAllEntries addEntry init pre = Except.ok s)
    (hfail : addEntry s tok = Except.error e) :
    ReadE init addEntry r = Except.error e := by
  simp only [ReadE]
  rw [hsplit, addAllEntries_append, hpre]
  simp [addAllEntries, hfail]

/-- C3 witness at the source string of the two tokens ok and bad: the
second token makes the sample insertion operation fail with error 7,
and Read propagates exactly that failure. -/
theorem C3_read_propagates_failure_witness :
    Split ('o' :: 'k' :: ' ' :: 'b' :: 'a' :: ['d']) =
        [['o', 'k']] ++ ['b', 'a', 'd'] :: [] ∧
      addAllEntries sampleAddEntry 0 [['o', 'k']] = Except.ok 1 ∧
      sampleAddEntry 1 ['b', 'a', 'd'] = Except.error 7 ∧
      ReadE 0 sampleAddEntry
          { m_str := 'o' :: 'k' :: ' ' :: 'b' :: 'a' :: ['d'] } =
        Except.error 7 :=
  ⟨by decide, by rfl, by rfl,
    C3_read_propagates_failure 0 sampleAddEntry
      { m_str := 'o' :: 'k' :: ' ' :: 'b' :: 'a' :: ['d'] }
      [['o', 'k']] [] ['b', 'a', 'd'] 1 7
      (by decide) (by rfl) (by rfl)⟩

/-- C4: Read is idempotent: invoking Read a second time, on the reader
state a first invocation leaves behind, yields a configuration with
identical ordered entry content. -/
theorem C4_read_idempotent (r : IbNodeConfStringReader) :
    (ReadSt (ReadSt r).1).2 = (ReadSt r).2 := by
  simp [ReadSt, foldl_pair_state]

/-- C5: construction accepts any string, including the empty one, and
for an empty or all-whitespace source Read returns a configuration with
zero entries. -/
theorem C5_read_all_whitespace (r : IbNodeConfStringReader)
    (h : ∀ c ∈ r.m_str, isWhitespaceChar c = true) :
    r.Read.entries = [] := by
  rw [Read_entries, Split_eq_nil_of_all_ws _ h]

/-- C5 witness: the empty source and an all-whitespace source both
yield zero entries. -/
theorem C5_read_all_whitespace_witness :
    (∀ c ∈ (' ' :: '\t' :: [' '] : List Char), isWhitespaceChar c = true) ∧
      (IbNodeConfStringReader.Read { m_str := ' ' :: '\t' :: [' '] }).entries = [] ∧
      (IbNodeConfStringReader.Read { m_str := [] }).entries = [] :=
  ⟨by decide,
    C5_read_all_whitespace { m_str := ' ' :: '\t' :: [' '] } (by decide),
    C5_read_all_whitespace { m_str := [] } (by decide)⟩

/-- C6: tokenization splits on contiguous runs of whitespace: every
token is nonempty, a second adjacent whitespace character changes
nothing, and a leading or trailing whitespace character changes
nothing. -/
theorem C6_split_contract (s a b t : List Char) (w w2 : Char)
    (hw : isWhitespaceChar w = true) (hw2 : isWhitespaceChar w2 = true)
    (ht : t ∈ Split s) :
    t ≠ [] ∧ Split (a ++ w :: w2 :: b) = Split (a ++ w :: b) ∧
      Split (w :: s) = Split s ∧ Split (s ++ [w]) = Split s := by
  refine ⟨ne_nil_of_mem_Split s t ht, ?_, Split_ws_cons w hw s,
    Split_ws_append w hw s⟩
  rw [Split_append_ws w hw, Split_append_ws w hw, Split_ws_cons w2 hw2]

/-- C6 witness at concrete strings, with space and tab as the two
whitespace characters. -/
theorem C6_split_contract_witness :
    (isWhitespaceChar ' ' = true ∧ isWhitespaceChar '\t' = true ∧
        ['x'] ∈ Split ['x']) ∧
      (['x'] ≠ ([] : List Char) ∧
        Split (['a'] ++ ' ' :: '\t' :: ['b']) = Split (['a'] ++ ' ' :: ['b']) ∧
        Split (' ' :: ['x']) = Split ['x'] ∧
        Split (['x'] ++ [' ']) = Split ['x']) :=
  ⟨⟨by decide, by decide, by decide⟩,
    C6_split_contract ['x'] ['a'] ['b'] ['x'] ' ' '\t'
      (by decide) (by decide) (by decide)⟩

/-- C7: duplicate tokens are preserved as separate entries in source
order: a source consisting of the same token twice, separated by a
space, yields exactly two identical entries, with no deduplication. -/
theorem C7_read_duplicates (t : List Char) (hne : t ≠ [])
    (h : ∀ c ∈ t, isWhitespaceChar c = false) :
    (IbNodeConfStringReader.Read { m_str := t ++ ' ' :: t }).entries =
      [t, t] := by
  rw [Read_entries]
  show Split (t ++ ' ' :: t) = [t, t]
  rw [Split_append_ws ' ' (by decide) t t, Split_eq_single t hne h]
  rfl

/-- C7 witness: a source of the token nodeA repeated twice yields two
identical entries. -/
theorem C7_read_duplicates_witness :
    (['n', 'o', 'd', 'e', 'A'] : List Char) ≠ [] ∧
      (∀ c ∈ (['n', 'o', 'd', 'e', 'A'] : List Char),
        isWhitespaceChar c = false) ∧
      (IbNodeConfStringReader.Read
          { m_str := ['n', 'o', 'd', 'e', 'A'] ++ ' ' :: ['n', 'o', 'd', 'e', 'A'] }).entries =
        [['n', 'o', 'd', 'e', 'A'], ['n', 'o', 'd', 'e', 'A']] :=
  ⟨by decide, by decide,
    C7_read_duplicates ['n', 'o', 'd', 'e', 'A'] (by decide) (by decide)⟩

/-- C8: Read leaves the reader state, in particular its stored source
string, unchanged, and its only effect is producing the freshly built
configuration that it returns to the caller. -/
theorem C8_read_frame (r : IbNodeConfStringReader) :
    (ReadSt r).1 = r ∧ (ReadSt r).2 = r.Read := by
  constructor <;>
    simp [ReadSt, IbNodeConfStringReader.Read, foldl_pair_state]

/-- C9: Read terminates on every finite input, as a total function of
the source, and its single-pass loop invokes AddEntry exactly once per
token: the instrumented run counts exactly one insertion per token and
produces the same configuration as Read. -/
theorem C9_read_single_pass (r : IbNodeConfStringReader) :
    (ReadInstr r).2 = (Split r.m_str).length ∧ (ReadInstr r).1 = r.Read := by
  constructor <;>
    simp [ReadInstr, IbNodeConfStringReader.Read, foldl_pair_count]

/-- C10: on an empty or all-whitespace source Read cannot fail, no
matter what the entry-insertion operation does, because no insertion is
ever invoked: the fallible run succeeds with the untouched initial
configuration value. -/
theorem C10_read_empty_total {ε σ : Type} (init : σ)
    (addEntry : σ → List Char → Except ε σ) (r : IbNodeConfStringReader)
    (h : ∀ c ∈ r.m_str, isWhitespaceChar c = true) :
    ReadE init addEntry r = Except.ok init := by
  simp only [ReadE]
  rw [Split_eq_nil_of_all_ws _ h]
  rfl

/-- C10 witness: with an insertion operation that always fails, Read on
an all-whitespace source still succeeds with the initial value. -/
theorem C10_read_empty_total_witness :
    (∀ c ∈ (' ' :: ['\t'] : List Char), isWhitespaceChar c = true) ∧
      ReadE (0 : Nat) (fun _ _ => Except.error (0 : Nat))
          { m_str := ' ' :: ['\t'] } =
        Except.ok 0 :=
  ⟨by decide,
    C10_read_empty_total 0 (fun _ _ => Except.error 0)
      { m_str := ' ' :: ['\t'] } (by decide)⟩

end IbnetCore

